import Mathlib

/-!
Verification development for the DuckDuckGo chat-completions bridge
(`src/index.ts`).  JavaScript strings are modelled as `List Char`, byte
streams as `List Nat` (values < 256).  The streaming handler, the
non-streaming aggregation path, and the request handler around them are
embedded as executable functions, translated statement by statement
from the TypeScript source.
-/

/-- JavaScript strings are modelled as lists of characters. -/
abbrev Str := List Char

/-! ### Line splitting

`buffer.split('\n')` followed by `buffer = parts.pop() || ''` (source
lines 196-197).  `splitNl t` returns the complete (newline-terminated)
lines together with the trailing fragment that the code keeps in the
buffer. -/

/-- Splits on single newlines: first component is the list of complete
lines, second is the trailing fragment retained in the buffer. -/
def splitNl : Str → List Str × Str
  | [] => ([], [])
  | c :: rest =>
    if c = '\n' then ([] :: (splitNl rest).1, (splitNl rest).2)
    else
      match (splitNl rest).1 with
      | [] => ([], c :: (splitNl rest).2)
      | l :: ls => ((c :: l) :: ls, (splitNl rest).2)

/-- `buffer.split("\n\n")` used by the non-streaming path (source line
260), with JavaScript's left-to-right non-overlapping semantics. -/
def splitBB : Str → List Str
  | [] => [[]]
  | [c] => [[c]]
  | c :: d :: rest =>
    if c = '\n' ∧ d = '\n' then [] :: splitBB rest
    else
      match splitBB (d :: rest) with
      | [] => [[c]]
      | s :: ss => (c :: s) :: ss

/-! ### JSON values and `JSON.parse`

The handler calls the JavaScript built-in `JSON.parse` on each stripped
line (source lines 224 and 267).  We embed a JSON value type and an
executable parser for the JSON grammar: optional surrounding whitespace,
objects, arrays, strings with escapes, numbers, `true`/`false`/`null`,
and rejection of any trailing input.  Number lexemes are kept verbatim
(the handler never computes with them). -/

inductive Json where
  | null : Json
  | bool : Bool → Json
  | num : Str → Json
  | str : Str → Json
  | arr : List Json → Json
  | obj : List (Str × Json) → Json

/-- JSON whitespace characters accepted by `JSON.parse`. -/
def isWsChar (c : Char) : Bool := c = ' ' || c = '\t' || c = '\n' || c = '\r'

def skipWs (s : Str) : Str := s.dropWhile isWsChar

def isDigit (c : Char) : Bool := '0' ≤ c && c ≤ '9'

def hexVal (c : Char) : Option Nat :=
  if '0' ≤ c ∧ c ≤ '9' then some (c.toNat - '0'.toNat)
  else if 'a' ≤ c ∧ c ≤ 'f' then some (c.toNat - 'a'.toNat + 10)
  else if 'A' ≤ c ∧ c ≤ 'F' then some (c.toNat - 'A'.toNat + 10)
  else none

/-- Single-character escapes after a backslash (the `\uXXXX` form is
handled separately). -/
def escChar (e : Char) : Option Char :=
  if e = '"' then some '"'
  else if e = '\\' then some '\\'
  else if e = '/' then some '/'
  else if e = 'b' then some (Char.ofNat 8)
  else if e = 'f' then some (Char.ofNat 12)
  else if e = 'n' then some '\n'
  else if e = 'r' then some (Char.ofNat 13)
  else if e = 't' then some '\t'
  else none

/-- Decodes a JSON string body after the opening quote (fuel-indexed;
every recursive step consumes at least one input character, so a fuel
of `length + 1` always suffices); returns the content and the input
remaining after the closing quote.  Surrogate pairs written with `\u`
escapes are combined; a lone surrogate (not representable as a scalar
value) falls back through `Char.ofNat`. -/
def lexStrAux (fuel : Nat) (s : Str) : Option (Str × Str) :=
  match fuel with
  | 0 => none
  | fl + 1 =>
    match s with
    | [] => none
    | c :: r =>
      if c = '"' then some ([], r)
      else if c = '\\' then
        match r with
        | 'u' :: h1 :: h2 :: h3 :: h4 :: r4 =>
          (match hexVal h1, hexVal h2, hexVal h3, hexVal h4 with
           | some a, some b, some cc, some d =>
             let n := ((a * 16 + b) * 16 + cc) * 16 + d
             if 0xD800 ≤ n ∧ n ≤ 0xDBFF then
               match r4 with
               | '\\' :: 'u' :: g1 :: g2 :: g3 :: g4 :: r8 =>
                 (match hexVal g1, hexVal g2, hexVal g3, hexVal g4 with
                  | some a2, some b2, some c2, some d2 =>
                    let m := ((a2 * 16 + b2) * 16 + c2) * 16 + d2
                    if 0xDC00 ≤ m ∧ m ≤ 0xDFFF then
                      (lexStrAux fl r8).map
                        (fun p => (Char.ofNat (0x10000 + (n - 0xD800) * 0x400 + (m - 0xDC00)) :: p.1, p.2))
                    else
                      (lexStrAux fl r4).map (fun p => (Char.ofNat n :: p.1, p.2))
                  | _, _, _, _ =>
                    (lexStrAux fl r4).map (fun p => (Char.ofNat n :: p.1, p.2)))
               | _ => (lexStrAux fl r4).map (fun p => (Char.ofNat n :: p.1, p.2))
             else (lexStrAux fl r4).map (fun p => (Char.ofNat n :: p.1, p.2))
           | _, _, _, _ => none)
        | e :: r2 =>
          match escChar e with
          | some ch => (lexStrAux fl r2).map (fun p => (ch :: p.1, p.2))
          | none => none
        | [] => none
      else if c.toNat < 0x20 then none
      else (lexStrAux fl r).map (fun p => (c :: p.1, p.2))

def lexStrBody (s : Str) : Option (Str × Str) := lexStrAux (s.length + 1) s

def takeDigits (s : Str) : Str × Str := (s.takeWhile isDigit, s.dropWhile isDigit)

/-- Optional fraction part `.digits`. -/
def lexFrac (s : Str) : Option (Str × Str) :=
  match s with
  | '.' :: r =>
    let p := takeDigits r
    if p.1 = [] then none else some ('.' :: p.1, p.2)
  | _ => some ([], s)

/-- Optional exponent part `[eE][+-]?digits`. -/
def lexExp (s : Str) : Option (Str × Str) :=
  match s with
  | c :: r =>
    if c = 'e' ∨ c = 'E' then
      let sg : Str × Str :=
        match r with
        | '+' :: r2 => (['+'], r2)
        | '-' :: r2 => (['-'], r2)
        | _ => ([], r)
      let p := takeDigits sg.2
      if p.1 = [] then none else some (c :: (sg.1 ++ p.1), p.2)
    else some ([], s)
  | [] => some ([], [])

/-- Lexes a JSON number, returning its lexeme and the rest of the
input. -/
def lexNumber (s : Str) : Option (Str × Str) :=
  let sgn : Str × Str :=
    match s with
    | '-' :: r => (['-'], r)
    | _ => ([], s)
  let ip : Option (Str × Str) :=
    match sgn.2 with
    | '0' :: r => some (['0'], r)
    | c :: r =>
      if isDigit c then
        let p := takeDigits r
        some (c :: p.1, p.2)
      else none
    | [] => none
  match ip with
  | none => none
  | some (ipart, r1) =>
    match lexFrac r1 with
    | none => none
    | some (fpart, r2) =>
      match lexExp r2 with
      | none => none
      | some (epart, r3) => some (sgn.1 ++ ipart ++ fpart ++ epart, r3)

mutual

/-- Parses one JSON value (fuel-indexed recursion). -/
def parseValue (fuel : Nat) (s : Str) : Option (Json × Str) :=
  match fuel with
  | 0 => none
  | f + 1 =>
    match skipWs s with
    | [] => none
    | c :: r =>
      if c = '{' then parseObj f r
      else if c = '[' then parseArr f r
      else if c = '"' then (lexStrBody r).map (fun p => (Json.str p.1, p.2))
      else if c = 't' then
        match r with
        | 'r' :: 'u' :: 'e' :: rest => some (Json.bool true, rest)
        | _ => none
      else if c = 'f' then
        match r with
        | 'a' :: 'l' :: 's' :: 'e' :: rest => some (Json.bool false, rest)
        | _ => none
      else if c = 'n' then
        match r with
        | 'u' :: 'l' :: 'l' :: rest => some (Json.null, rest)
        | _ => none
      else
        match lexNumber (c :: r) with
        | some p => some (Json.num p.1, p.2)
        | none => none

/-- Parses an object body after the opening brace. -/
def parseObj (fuel : Nat) (s : Str) : Option (Json × Str) :=
  match fuel with
  | 0 => none
  | f + 1 =>
    match skipWs s with
    | '}' :: rest => some (Json.obj [], rest)
    | _ => parseMembers f s []

/-- Parses one or more `"key": value` members. -/
def parseMembers (fuel : Nat) (s : Str) (acc : List (Str × Json)) : Option (Json × Str) :=
  match fuel with
  | 0 => none
  | f + 1 =>
    match skipWs s with
    | '"' :: r =>
      match lexStrBody r with
      | none => none
      | some (key, r2) =>
        match skipWs r2 with
        | ':' :: r3 =>
          match parseValue f r3 with
          | none => none
          | some (v, r4) =>
            match skipWs r4 with
            | ',' :: r5 => parseMembers f r5 (acc ++ [(key, v)])
            | '}' :: r5 => some (Json.obj (acc ++ [(key, v)]), r5)
            | _ => none
        | _ => none
    | _ => none

/-- Parses an array body after the opening bracket. -/
def parseArr (fuel : Nat) (s : Str) : Option (Json × Str) :=
  match fuel with
  | 0 => none
  | f + 1 =>
    match skipWs s with
    | ']' :: rest => some (Json.arr [], rest)
    | _ => parseItems f s []

/-- Parses one or more array items. -/
def parseItems (fuel : Nat) (s : Str) (acc : List Json) : Option (Json × Str) :=
  match fuel with
  | 0 => none
  | f + 1 =>
    match parseValue f s with
    | none => none
    | some (v, r) =>
      match skipWs r with
      | ',' :: r2 => parseItems f r2 (acc ++ [v])
      | ']' :: r2 => some (Json.arr (acc ++ [v]), r2)
      | _ => none

end

/-- `JSON.parse`: a parse succeeds only when nothing but whitespace
remains after the value.  Fuel `3 * length + 3` is sufficient: at most
three recursive entries occur per consumed input character. -/
def jsonParse (s : Str) : Option Json :=
  match parseValue (3 * s.length + 3) s with
  | some (v, rest) => if skipWs rest = [] then some v else none
  | none => none

/-- JavaScript property read `v[key]` on a parsed JSON value: own
property of an object (last duplicate key wins, as in `JSON.parse`),
`undefined` (`none`) on every other non-null value. -/
def objGet (v : Json) (key : Str) : Option Json :=
  match v with
  | Json.obj fs => fs.foldl (fun acc kv => if kv.1 = key then some kv.2 else acc) none
  | _ => none

/-! ### Per-line processing of the backend stream

Source lines 199-244: each complete line has its first six characters
removed (`part.substring(6)`), is compared against the sentinel literal
`[DONE]`, and is otherwise given to `JSON.parse` inside a `try`/`catch`
whose handler drops the line.  A successfully parsed value `v` yields a
frame whose delta carries `v["role"]` and `v["message"]`; reading a
property of `null` throws, so a parsed `null` is also dropped. -/

def doneLit : Str := "[DONE]".toList

def msgKey : Str := "message".toList

def roleKey : Str := "role".toList

/-- The three possible effects of one complete line. -/
inductive LEvent where
  | skip : LEvent
  | emitF : Option Json → Option Json → LEvent
  | term : LEvent

def lineEvent (line : Str) : LEvent :=
  let p := line.drop 6
  if p = doneLit then LEvent.term
  else
    match jsonParse p with
    | none => LEvent.skip
    | some Json.null => LEvent.skip
    | some v => LEvent.emitF (objGet v roleKey) (objGet v msgKey)

/-- Frames written to the SSE stream, keeping the request-independent
parts that distinguish them: a delta frame with the parsed role and
message (source lines 225-241), the synthetic terminal frame with
`finish_reason: "stop"` and empty delta (lines 203-217), and the
literal `[DONE]` marker (line 218). -/
inductive Frame where
  | delta : Option Json → Option Json → Frame
  | stop : Frame
  | doneMark : Frame

/-- Processes a list of complete lines in order; the boolean records
whether the sentinel was reached (the code then `return`s, so nothing
after it is processed). -/
def procLines : List Str → List Frame × Bool
  | [] => ([], false)
  | l :: ls =>
    match lineEvent l with
    | LEvent.term => ([Frame.stop, Frame.doneMark], true)
    | LEvent.skip => procLines ls
    | LEvent.emitF r c => ((Frame.delta r c) :: (procLines ls).1, (procLines ls).2)

/-! ### Incremental UTF-8 decoding

`new TextDecoder()` / `decoder.decode(value, {stream: true})` (source
lines 185 and 195): the WHATWG UTF-8 decoder, with replacement
characters for invalid sequences and removal of one leading byte-order
mark.  Streaming state is carried across chunks; the handler never
flushes the decoder, so a trailing incomplete sequence at end of
stream produces nothing. -/

structure DecCore where
  cp : Nat
  needed : Nat
  seen : Nat
  lo : Nat
  hi : Nat
deriving DecidableEq

def coreInit : DecCore := ⟨0, 0, 0, 0x80, 0xBF⟩

def replChar : Char := Char.ofNat 0xFFFD

/-- Handles a byte in the initial decoder state. -/
def startByte (b : Nat) : DecCore × Str :=
  if b ≤ 0x7F then (coreInit, [Char.ofNat b])
  else if 0xC2 ≤ b ∧ b ≤ 0xDF then (⟨b % 32, 1, 0, 0x80, 0xBF⟩, [])
  else if 0xE0 ≤ b ∧ b ≤ 0xEF then
    (⟨b % 16, 2, 0, if b = 0xE0 then 0xA0 else 0x80, if b = 0xED then 0x9F else 0xBF⟩, [])
  else if 0xF0 ≤ b ∧ b ≤ 0xF4 then
    (⟨b % 8, 3, 0, if b = 0xF0 then 0x90 else 0x80, if b = 0xF4 then 0x8F else 0xBF⟩, [])
  else (coreInit, [replChar])

/-- One byte through the WHATWG UTF-8 decoder: on a continuation byte
out of range the state is reset, a replacement character is emitted
and the byte is reprocessed from the initial state. -/
def decByte (ds : DecCore) (b : Nat) : DecCore × Str :=
  if ds.needed = 0 then startByte b
  else if b < ds.lo ∨ ds.hi < b then
    let r := startByte b
    (r.1, replChar :: r.2)
  else
    let cp := ds.cp * 64 + b % 64
    if ds.seen + 1 = ds.needed then (coreInit, [Char.ofNat cp])
    else (⟨cp, ds.needed, ds.seen + 1, 0x80, 0xBF⟩, [])

/-- Decoder state including the BOM-removal flag (`first` is true while
no character has been produced yet; a first character U+FEFF is
dropped, as `new TextDecoder()` defaults to `ignoreBOM: false`). -/
structure DecState where
  core : DecCore
  first : Bool
deriving DecidableEq

def initState : DecState := ⟨coreInit, true⟩

def emitBom (first : Bool) (cs : Str) : Bool × Str :=
  match first, cs with
  | false, cs => (false, cs)
  | true, [] => (true, [])
  | true, c :: rest => (false, if c = Char.ofNat 0xFEFF then rest else c :: rest)

def decByteB (ds : DecState) (b : Nat) : DecState × Str :=
  let r := decByte ds.core b
  let e := emitBom ds.first r.2
  (⟨r.1, e.1⟩, e.2)

/-- Decodes one network chunk, threading the decoder state. -/
def decodeChunk : DecState → List Nat → DecState × Str
  | ds, [] => (ds, [])
  | ds, b :: bs =>
    let r1 := decByteB ds b
    let r2 := decodeChunk r1.1 bs
    (r2.1, r1.2 ++ r2.2)

/-- `resp.text()`: whole-body UTF-8 decode, flushing a pending
incomplete sequence into a replacement character. -/
def decodeFull (bs : List Nat) : Str :=
  let r := decodeChunk initState bs
  r.2 ++ (if r.1.core.needed = 0 then [] else [replChar])

/-! ### The streaming read loop

Source lines 188-246: repeatedly read a chunk, decode it into the text
buffer, split on newlines, keep the trailing fragment, process every
complete line; stop the whole handler at the sentinel; at graceful end
of stream just break, discarding the buffer. -/

/-- Runs the read loop from a given decoder state and line buffer over
the remaining chunks. -/
def runChunks : DecState → Str → List (List Nat) → List Frame
  | _, _, [] => []
  | ds, buf, ch :: chs =>
    let dt := decodeChunk ds ch
    let sp := splitNl (buf ++ dt.2)
    let pl := procLines sp.1
    if pl.2 then pl.1 else pl.1 ++ runChunks dt.1 sp.2 chs

/-- The full streaming path on a chunked byte stream. -/
def runStream (chunks : List (List Nat)) : List Frame :=
  runChunks initState [] chunks

/-- The streaming path on an already-decoded text arriving in one
piece: all complete lines are processed, the trailing fragment is
dropped. -/
def runStreamText (t : Str) : List Frame := (procLines (splitNl t).1).1

/-! ### Non-streaming aggregation

Source lines 256-272: buffer the whole response text, split on blank
lines, strip six characters from each part, stop at the sentinel,
accumulate `parseJson["message"] ?? ''` of each part that parses
(a parsed `null` throws on the property read and is skipped; a `null`
or absent message contributes the empty string via `??`). -/

mutual

/-- JavaScript string coercion of a JSON value, used by `+=` when the
`message` field is not a string.  Number values keep their source
lexeme (an approximation of JavaScript's number-to-string algorithm,
which re-renders the numeric value). -/
def jsToString : Json → Str
  | Json.null => "null".toList
  | Json.bool b => if b then ("true".toList) else ("false".toList)
  | Json.num l => l
  | Json.str s => s
  | Json.obj _ => "[object Object]".toList
  | Json.arr xs => jsListStr xs

def jsListStr : List Json → Str
  | [] => []
  | [Json.null] => []
  | [v] => jsToString v
  | Json.null :: rest => ',' :: jsListStr rest
  | v :: rest => jsToString v ++ ',' :: jsListStr rest

end

/-- Processes the blank-line-separated parts, stopping at the
sentinel. -/
def aggParts : List Str → Str
  | [] => []
  | p :: ps =>
    let q := p.drop 6
    if q = doneLit then []
    else
      match jsonParse q with
      | none => aggParts ps
      | some Json.null => aggParts ps
      | some v =>
        (match objGet v msgKey with
         | none => []
         | some Json.null => []
         | some w => jsToString w) ++ aggParts ps

/-- The non-streaming aggregation path on the fully-buffered response
text. -/
def aggregate (t : Str) : Str := aggParts (splitBB t)

/-! ### The request handler around the bridge

Source lines 110-306, after validation and API-key checking.  Network
effects are parameters: the caller-supplied `x-vqd-4` header, the
result of `getXcqd4` (which can return a token, return `null`, or
throw), and the backend `fetch` of the chat endpoint as a function of
the translated body and the token. -/

structure ChatMessage where
  role : Str
  content : Str
deriving DecidableEq

structure ChatRequest where
  model : Str
  messages : List ChatMessage
  stream : Bool
deriving DecidableEq

/-- Source lines 134-140: the translated backend request body. -/
structure BackendReqBody where
  model : Str
  messages : List ChatMessage
deriving DecidableEq

def translateMessage (m : ChatMessage) : ChatMessage :=
  ⟨if m.role = ("system".toList) then ("user".toList) else m.role, m.content⟩

def requestParams (req : ChatRequest) : BackendReqBody :=
  ⟨req.model, req.messages.map translateMessage⟩

/-- The backend chat response: status success flag, error body text
(read when not ok), the `x-vqd-4` response header, and the body byte
stream (`none` models a null body). -/
structure BackendResp where
  ok : Bool
  errorText : Str
  xvqd : Option Str
  body : Option (List (List Nat))

/-- Outcomes of the handler, as far as they are deterministic:
`errJson` for the structured 400 payloads, `errThrown` for the generic
catch-all that serializes the exception, `sse` for the streamed frame
sequence (with the `x-vqd-4` response header value), `completion` for
the aggregated JSON reply, `noBody` for the fall-through when the
backend body is null in the non-streaming branch. -/
inductive Outcome where
  | errJson : Nat → Str → Option Str → Outcome
  | errThrown : Nat → Outcome
  | sse : List Frame → Str → Outcome
  | completion : Str → Str → Outcome
  | noBody : Str → Outcome

def tokenErrText : Str := "x-xqd-4 get error".toList

def apiErrText : Str := "api request error".toList

/-- Source lines 143-146: `let x4 = header; if (!x4) x4 = await
getXcqd4() || ""`.  An empty header string is falsy and triggers the
fetch; a fetched `null` becomes the empty string; a throw propagates
to the outer catch. -/
def effToken (hdrToken : Option Str) (ftok : Except Unit (Option Str)) : Except Unit Str :=
  match hdrToken with
  | some t =>
    if t = [] then
      match ftok with
      | Except.ok tk => Except.ok (tk.getD [])
      | Except.error e => Except.error e
    else Except.ok t
  | none =>
    match ftok with
    | Except.ok tk => Except.ok (tk.getD [])
    | Except.error e => Except.error e

/-- The chat-completions handler after validation and API-key check
(source lines 127-306), with network effects supplied as arguments.
`chat` models the backend `fetch` of the chat endpoint, applied to the
translated body and the token actually sent. -/
def handleChat (req : ChatRequest) (hdrToken : Option Str)
    (ftok : Except Unit (Option Str)) (chat : BackendReqBody → Str → BackendResp) : Outcome :=
  match effToken hdrToken ftok with
  | Except.error _ => Outcome.errThrown 400
  | Except.ok x4 =>
    if x4 = [] then Outcome.errJson 400 tokenErrText none
    else
      let resp := chat (requestParams req) x4
      if resp.ok then
        let xhdr := (resp.xvqd).getD []
        if req.stream then
          Outcome.sse
            (match resp.body with
             | none => []
             | some chunks => runStream chunks) xhdr
        else
          match resp.body with
          | some chunks => Outcome.completion (aggregate (decodeFull chunks.flatten)) xhdr
          | none => Outcome.noBody xhdr
      else Outcome.errJson 400 apiErrText (some resp.errorText)

/-! ### Spec-side readings used by the refinement claim

The spec speaks of "concatenating the text deltas of all non-sentinel
frames"; a frame's text delta is its content when that content is a
JSON string, and empty otherwise. -/

def deltaText : Option Json → Str
  | some (Json.str s) => s
  | _ => []

def frameText : Frame → Str
  | Frame.delta _ c => deltaText c
  | _ => []

def streamConcat (fs : List Frame) : Str := (fs.map frameText).flatten

def Frame.isDelta : Frame → Bool
  | Frame.delta _ _ => true
  | _ => false

/-- A parsed line whose `message` field is absent, `null`, or a JSON
string (the shapes on which the two splitting disciplines agree
value-wise). -/
def msgFieldOk (p : Str) : Bool :=
  match jsonParse p with
  | none => true
  | some v =>
    match objGet v msgKey with
    | none => true
    | some Json.null => true
    | some (Json.str _) => true
    | some _ => false

/-- The frame produced by one line on the streaming path, if any. -/
def lineFrame (l : Str) : Option Frame :=
  match lineEvent l with
  | LEvent.emitF r c => some (Frame.delta r c)
  | _ => none

/-- ASCII encoding of a string into bytes, for concrete byte-level
inputs. -/
def asciiBytes (s : String) : List Nat := s.toList.map Char.toNat

/-! ### Structural lemmas about line splitting -/

theorem splitNl_no_nl (a : Str) (h : '\n' ∉ a) : splitNl a = ([], a) := by
  induction a with
  | nil => rfl
  | cons c r ih =>
    have hc : ¬ c = '\n' := by
      intro hc; exact h (by rw [hc]; exact List.mem_cons_self _ _)
    have hr : '\n' ∉ r := fun hm => h (List.mem_cons_of_mem c hm)
    simp [splitNl, hc, ih hr]

theorem frag_no_nl (t : Str) : '\n' ∉ (splitNl t).2 := by
  induction t with
  | nil => simp [splitNl]
  | cons c r ih =>
    by_cases hc : c = '\n'
    · simpa [splitNl, hc] using ih
    · cases h : (splitNl r).1 with
      | nil =>
        simp only [splitNl, hc, if_false, h]
        intro hm
        rcases List.mem_cons.mp hm with h1 | h2
        · exact hc h1.symm
        · exact ih h2
      | cons l ls => simpa [splitNl, hc, h] using ih

/-- Combines the split of two concatenated texts: the fragment of the
first merges into the first line of the second. -/
def nlMerge (a b : List Str × Str) : List Str × Str :=
  match b.1 with
  | [] => (a.1, a.2 ++ b.2)
  | l :: ls => (a.1 ++ (a.2 ++ l) :: ls, b.2)

theorem splitNl_append (a b : Str) :
    splitNl (a ++ b) = nlMerge (splitNl a) (splitNl b) := by
  induction a with
  | nil =>
    cases h : (splitNl b).1 with
    | nil =>
      simp only [List.nil_append, splitNl, nlMerge, h]
      rw [← h]
    | cons l ls =>
      simp only [List.nil_append, splitNl, nlMerge, h]
      rw [← h]
  | cons c a' ih =>
    by_cases hc : c = '\n' <;>
      cases ha : (splitNl a').1 <;>
      cases hb : (splitNl b).1 <;>
      simp_all [List.cons_append, splitNl, nlMerge]

theorem splitNl_line (l t : Str) (h : '\n' ∉ l) :
    splitNl (l ++ '\n' :: t) = (l :: (splitNl t).1, (splitNl t).2) := by
  have hb : splitNl ('\n' :: t) = ([] :: (splitNl t).1, (splitNl t).2) := by
    simp [splitNl]
  rw [splitNl_append, splitNl_no_nl l h, hb]
  simp [nlMerge]

theorem splitNl_lines_no_nl (u f : Str) (h : '\n' ∉ f) :
    (splitNl (u ++ f)).1 = (splitNl u).1 := by
  rw [splitNl_append, splitNl_no_nl f h]
  simp [nlMerge]

/-! ### Structural lemmas about line processing -/

theorem lineEvent_term_iff (l : Str) : lineEvent l = LEvent.term ↔ l.drop 6 = doneLit := by
  constructor
  · intro h
    by_cases hd : l.drop 6 = doneLit
    · exact hd
    · simp only [lineEvent, hd, if_false] at h
      cases hj : jsonParse (l.drop 6) with
      | none => simp [hj] at h
      | some v => cases v <;> simp [hj] at h
  · intro h
    simp [lineEvent, h]

theorem procLines_append (L1 L2 : List Str) :
    procLines (L1 ++ L2) =
      (if (procLines L1).2 then procLines L1
       else ((procLines L1).1 ++ (procLines L2).1, (procLines L2).2)) := by
  induction L1 with
  | nil => simp [procLines]
  | cons l ls ih =>
    cases he : lineEvent l with
    | term => simp [procLines, he]
    | skip => simpa [procLines, he] using ih
    | emitF r c =>
      by_cases hd : (procLines ls).2 <;> simp_all [procLines, he]

/-! ### Structural lemmas about decoding -/

theorem decodeChunk_append (ds : DecState) (a b : List Nat) :
    decodeChunk ds (a ++ b) =
      ((decodeChunk (decodeChunk ds a).1 b).1,
       (decodeChunk ds a).2 ++ (decodeChunk (decodeChunk ds a).1 b).2) := by
  induction a generalizing ds with
  | nil => simp [decodeChunk]
  | cons x xs ih => simp [decodeChunk, ih]

/-- The chunked read loop equals single-pass processing of the decoded
remainder: complete lines are processed in order with the sentinel
cutting everything off, and the final fragment is dropped. -/
theorem runChunks_eq (cs : List (List Nat)) (ds : DecState) (buf : Str) (h : '\n' ∉ buf) :
    runChunks ds buf cs = (procLines (splitNl (buf ++ (decodeChunk ds cs.flatten).2)).1).1 := by
  induction cs generalizing ds buf with
  | nil =>
    simp [runChunks, decodeChunk, splitNl_no_nl buf h, procLines]
  | cons ch chs ih =>
    have hflat : (ch :: chs).flatten = ch ++ chs.flatten := rfl
    rw [hflat, decodeChunk_append]
    have hassoc : buf ++ ((decodeChunk ds ch).2 ++ (decodeChunk (decodeChunk ds ch).1 chs.flatten).2)
        = (buf ++ (decodeChunk ds ch).2) ++ (decodeChunk (decodeChunk ds ch).1 chs.flatten).2 := by
      simp [List.append_assoc]
    have hfrag : '\n' ∉ (splitNl (buf ++ (decodeChunk ds ch).2)).2 := frag_no_nl _
    have houter : splitNl ((buf ++ (decodeChunk ds ch).2) ++ (decodeChunk (decodeChunk ds ch).1 chs.flatten).2)
        = nlMerge (splitNl (buf ++ (decodeChunk ds ch).2))
            (splitNl (decodeChunk (decodeChunk ds ch).1 chs.flatten).2) := splitNl_append _ _
    have hinner : splitNl ((splitNl (buf ++ (decodeChunk ds ch).2)).2
          ++ (decodeChunk (decodeChunk ds ch).1 chs.flatten).2)
        = nlMerge ([], (splitNl (buf ++ (decodeChunk ds ch).2)).2)
            (splitNl (decodeChunk (decodeChunk ds ch).1 chs.flatten).2) := by
      rw [splitNl_append, splitNl_no_nl _ hfrag]
    rw [hassoc, houter, runChunks, ih (decodeChunk ds ch).1 _ hfrag, hinner]
    cases hr : (splitNl (decodeChunk (decodeChunk ds ch).1 chs.flatten).2).1 with
    | nil =>
      simp only [nlMerge, hr, procLines, List.append_nil]
      by_cases hd : (procLines (splitNl (buf ++ (decodeChunk ds ch).2)).1).2 <;> simp [hd]
    | cons m ms =>
      simp only [nlMerge, hr, List.nil_append]
      rw [procLines_append]
      by_cases hd : (procLines (splitNl (buf ++ (decodeChunk ds ch).2)).1).2 <;> simp [hd]

/-! ### Sentinel and parse-failure behaviour of the line processor -/

theorem procLines_sentinel (L : List Str) (h : ∃ l ∈ L, l.drop 6 = doneLit) :
    ∃ F, procLines L = (F ++ [Frame.stop, Frame.doneMark], true)
      ∧ ∀ f ∈ F, f.isDelta = true := by
  induction L with
  | nil => exact absurd h (by simp)
  | cons l ls ih =>
    cases he : lineEvent l with
    | term => exact ⟨[], by simp [procLines, he], by simp⟩
    | skip =>
      have hl : ¬ l.drop 6 = doneLit := by
        intro hd
        rw [(lineEvent_term_iff l).mpr hd] at he
        cases he
      obtain ⟨x, hx, hxd⟩ := h
      rcases List.mem_cons.mp hx with rfl | hx'
      · exact absurd hxd hl
      · obtain ⟨F, hF, hFd⟩ := ih ⟨x, hx', hxd⟩
        exact ⟨F, by simp [procLines, he, hF], hFd⟩
    | emitF r c =>
      have hl : ¬ l.drop 6 = doneLit := by
        intro hd
        rw [(lineEvent_term_iff l).mpr hd] at he
        cases he
      obtain ⟨x, hx, hxd⟩ := h
      rcases List.mem_cons.mp hx with rfl | hx'
      · exact absurd hxd hl
      · obtain ⟨F, hF, hFd⟩ := ih ⟨x, hx', hxd⟩
        refine ⟨Frame.delta r c :: F, by simp [procLines, he, hF], ?_⟩
        intro f hf
        rcases List.mem_cons.mp hf with rfl | hf'
        · rfl
        · exact hFd f hf'

theorem procLines_no_sentinel (L : List Str) (h : ∀ l ∈ L, ¬ l.drop 6 = doneLit) :
    procLines L = (L.filterMap lineFrame, false) := by
  induction L with
  | nil => simp [procLines]
  | cons l ls ih =>
    have hl := h l (List.mem_cons_self _ _)
    have hls : ∀ x ∈ ls, ¬ x.drop 6 = doneLit := fun x hx => h x (List.mem_cons_of_mem _ hx)
    cases he : lineEvent l with
    | term => exact absurd ((lineEvent_term_iff l).mp he) hl
    | skip => simp [procLines, he, lineFrame, ih hls]
    | emitF r c => simp [procLines, he, lineFrame, ih hls]

/-- C2: for every backend byte stream and every partition of it into
network chunks (boundaries may fall mid-line and mid-multi-byte UTF-8
sequence), the streaming path parses and emits the same frame sequence
as when the whole stream arrives in one chunk. -/
theorem frames_chunk_invariant (chunks : List (List Nat)) :
    runStream chunks = runStream [chunks.flatten] := by
  unfold runStream
  rw [runChunks_eq chunks initState [] (by simp),
    runChunks_eq [chunks.flatten] initState [] (by simp)]
  simp

/-- C3: a stream containing a complete sentinel line ends, as its last
two emissions, with exactly one synthetic stop frame followed by one
literal end marker, with only delta frames before them and nothing
after — even when further bytes follow the sentinel. -/
theorem sentinel_terminal_pair (chunks : List (List Nat))
    (h : ∃ l ∈ (splitNl (decodeChunk initState chunks.flatten).2).1, l.drop 6 = doneLit) :
    ∃ F, runStream chunks = F ++ [Frame.stop, Frame.doneMark]
      ∧ ∀ f ∈ F, f.isDelta = true := by
  obtain ⟨F, hF, hFd⟩ := procLines_sentinel _ h
  refine ⟨F, ?_, hFd⟩
  unfold runStream
  rw [runChunks_eq chunks initState [] (by simp)]
  simp [hF]

theorem sentinel_terminal_pair_witness :
    ∃ F, runStream [asciiBytes ("data: [DONE]"), asciiBytes ("\ndata: x\n")]
        = F ++ [Frame.stop, Frame.doneMark] ∧ ∀ f ∈ F, f.isDelta = true :=
  sentinel_terminal_pair [asciiBytes ("data: [DONE]"), asciiBytes ("\ndata: x\n")] (by decide)

/-- C6: a stream that ends without any sentinel line yields exactly the
frames parsed from its complete lines and then ends, with no synthetic
stop frame and no end marker. -/
theorem no_sentinel_no_terminal_pair (chunks : List (List Nat))
    (h : ∀ l ∈ (splitNl (decodeChunk initState chunks.flatten).2).1, ¬ l.drop 6 = doneLit) :
    runStream chunks
        = ((splitNl (decodeChunk initState chunks.flatten).2).1).filterMap lineFrame
      ∧ ∀ f ∈ runStream chunks, f.isDelta = true := by
  have hp := procLines_no_sentinel _ h
  have he : runStream chunks
      = ((splitNl (decodeChunk initState chunks.flatten).2).1).filterMap lineFrame := by
    unfold runStream
    rw [runChunks_eq chunks initState [] (by simp)]
    simp [hp]
  refine ⟨he, ?_⟩
  rw [he]
  intro f hf
  obtain ⟨l, hl, hlf⟩ := List.mem_filterMap.mp hf
  unfold lineFrame at hlf
  cases hev : lineEvent l with
  | skip => rw [hev] at hlf; cases hlf
  | term => rw [hev] at hlf; cases hlf
  | emitF r c => rw [hev] at hlf; cases hlf; rfl

theorem no_sentinel_no_terminal_pair_witness :
    runStream [asciiBytes ("data: \x7b\x7d\ndata: x\ndata: tail")]
        = ((splitNl (decodeChunk initState
            ([asciiBytes ("data: \x7b\x7d\ndata: x\ndata: tail")]).flatten).2).1).filterMap lineFrame
      ∧ ∀ f ∈ runStream [asciiBytes ("data: \x7b\x7d\ndata: x\ndata: tail")], f.isDelta = true :=
  no_sentinel_no_terminal_pair [asciiBytes ("data: \x7b\x7d\ndata: x\ndata: tail")] (by decide)

/-- C10: a final fragment not terminated by a newline is simply
retained in the buffer and discarded at end of stream — appending any
newline-free suffix to the input changes nothing, even when that
suffix is a well-formed frame line or the sentinel line. -/
theorem trailing_fragment_ignored (u f : Str) (hf : '\n' ∉ f) :
    runStreamText (u ++ f) = runStreamText u := by
  unfold runStreamText
  rw [splitNl_lines_no_nl u f hf]

theorem trailing_fragment_ignored_witness :
    runStreamText (("data: \x7b\"message\":\"a\"\x7d\n".toList) ++ ("data: [DONE]".toList))
        = runStreamText ("data: \x7b\"message\":\"a\"\x7d\n".toList) :=
  trailing_fragment_ignored ("data: \x7b\"message\":\"a\"\x7d\n".toList)
    ("data: [DONE]".toList) (by decide)

/-! ### Per-line event characterizations -/

theorem lineEvent_emit (l : Str) (v : Json)
    (h1 : jsonParse (l.drop 6) = some v) (h2 : ¬ v = Json.null) :
    lineEvent l = LEvent.emitF (objGet v roleKey) (objGet v msgKey) := by
  have hd : ¬ l.drop 6 = doneLit := by
    intro hd
    rw [hd] at h1
    have hnone : jsonParse doneLit = none := rfl
    rw [hnone] at h1
    cases h1
  cases v with
  | null => exact absurd rfl h2
  | bool b => simp [lineEvent, hd, h1]
  | num x => simp [lineEvent, hd, h1]
  | str x => simp [lineEvent, hd, h1]
  | arr xs => simp [lineEvent, hd, h1]
  | obj fs => simp [lineEvent, hd, h1]

theorem lineEvent_skip_of_fail (l : Str)
    (hd : ¬ l.drop 6 = doneLit) (hp : jsonParse (l.drop 6) = none) :
    lineEvent l = LEvent.skip := by
  simp [lineEvent, hd, hp]

theorem dataLine_drop (p : Str) : (("data: ".toList) ++ p).drop 6 = p := rfl

theorem dataLine_no_nl (p : Str) (hp : '\n' ∉ p) : '\n' ∉ (("data: ".toList) ++ p) := by
  intro hmem
  rcases List.mem_append.mp hmem with hmk | hmk
  · revert hmk
    decide
  · exact hp hmk

/-- C5: a stream of three complete lines whose middle payload is
neither the sentinel nor valid JSON yields exactly the two frames of
the surrounding valid lines; the malformed line produces nothing and
does not stop processing of the line after it. -/
theorem malformed_line_skipped (p1 m p2 : Str) (v1 v2 : Json)
    (h1 : jsonParse p1 = some v1) (hv1 : ¬ v1 = Json.null)
    (h2 : jsonParse p2 = some v2) (hv2 : ¬ v2 = Json.null)
    (hm : jsonParse m = none) (hmd : ¬ m = doneLit)
    (hn1 : '\n' ∉ p1) (hn2 : '\n' ∉ p2) (hnm : '\n' ∉ m) :
    runStreamText (("data: ".toList) ++ p1
        ++ '\n' :: ("data: ".toList) ++ m
        ++ '\n' :: ("data: ".toList) ++ p2 ++ ['\n'])
      = [Frame.delta (objGet v1 roleKey) (objGet v1 msgKey),
         Frame.delta (objGet v2 roleKey) (objGet v2 msgKey)] := by
  have he1 : lineEvent (("data: ".toList) ++ p1) = LEvent.emitF (objGet v1 roleKey) (objGet v1 msgKey) :=
    lineEvent_emit _ v1 (by rw [dataLine_drop]; exact h1) hv1
  have he2 : lineEvent (("data: ".toList) ++ m) = LEvent.skip :=
    lineEvent_skip_of_fail _ (by rw [dataLine_drop]; exact hmd) (by rw [dataLine_drop]; exact hm)
  have he3 : lineEvent (("data: ".toList) ++ p2) = LEvent.emitF (objGet v2 roleKey) (objGet v2 msgKey) :=
    lineEvent_emit _ v2 (by rw [dataLine_drop]; exact h2) hv2
  unfold runStreamText
  rw [show ("data: ".toList) ++ p1 ++ '\n' :: ("data: ".toList) ++ m
        ++ '\n' :: ("data: ".toList) ++ p2 ++ ['\n']
      = (("data: ".toList) ++ p1) ++ '\n' :: ((("data: ".toList) ++ m)
        ++ '\n' :: ((("data: ".toList) ++ p2) ++ '\n' :: ([] : Str))) by simp]
  rw [splitNl_line _ _ (dataLine_no_nl p1 hn1),
    splitNl_line _ _ (dataLine_no_nl m hnm),
    splitNl_line _ _ (dataLine_no_nl p2 hn2)]
  simp only [List.cons_append, List.nil_append, String.toList] at he1 he2 he3 ⊢
  simp [procLines, he1, he2, he3, splitNl]

theorem malformed_line_skipped_witness :
    runStreamText (("data: ".toList) ++ ("\x7b\"message\":\"Hel\"\x7d".toList)
        ++ '\n' :: ("data: ".toList) ++ ("oops".toList)
        ++ '\n' :: ("data: ".toList) ++ ("\x7b\"message\":\"lo\"\x7d".toList) ++ ['\n'])
      = [Frame.delta none (some (Json.str ("Hel".toList))),
         Frame.delta none (some (Json.str ("lo".toList)))] :=
  malformed_line_skipped ("\x7b\"message\":\"Hel\"\x7d".toList) ("oops".toList)
    ("\x7b\"message\":\"lo\"\x7d".toList)
    (Json.obj [("message".toList, Json.str ("Hel".toList))])
    (Json.obj [("message".toList, Json.str ("lo".toList))])
    rfl (fun h => Json.noConfusion h) rfl (fun h => Json.noConfusion h) rfl
    (by decide) (by decide) (by decide) (by decide)

/-! ### Blank-line splitting lemmas -/

theorem splitBB_block (l t : Str) (h : '\n' ∉ l) :
    splitBB (l ++ '\n' :: '\n' :: t) = l :: splitBB t := by
  induction l with
  | nil => simp [splitBB]
  | cons c l' ih =>
    have hc : ¬ c = '\n' := fun hc => h (by rw [hc]; exact List.mem_cons_self _ _)
    have hl' : '\n' ∉ l' := fun hm => h (List.mem_cons_of_mem _ hm)
    cases hl : l' with
    | nil =>
      simp only [hl, List.nil_append, List.cons_append]
      simp [splitBB, hc]
    | cons d l'' =>
      have ihd : splitBB (l' ++ '\n' :: '\n' :: t) = l' :: splitBB t := ih hl'
      rw [hl] at ihd
      simp only [hl, List.cons_append]
      have hcd : ¬ (c = '\n' ∧ d = '\n') := fun hx => hc hx.1
      simp only [splitBB, hcd, if_false]
      rw [List.cons_append] at ihd
      rw [ihd]

theorem lineEvent_nil : lineEvent ([] : Str) = LEvent.skip := rfl

/-- C1 (counterexample): on a backend stream whose frames are
separated by single newlines, the concatenated streaming text deltas
and the aggregated non-streaming content differ — the streaming path
parses both payloads while the blank-line split of the aggregator sees
one unparseable part. -/
theorem stream_agg_differ_cex :
    ¬ streamConcat (runStreamText
        (("data: \x7b\"message\":\"a\"\x7d\ndata: \x7b\"message\":\"b\"\x7d\n").toList))
      = aggregate (("data: \x7b\"message\":\"a\"\x7d\ndata: \x7b\"message\":\"b\"\x7d\n").toList) := by
  decide

/-- C1 (amended): when every frame line is terminated by a blank line
(the backend's documented framing) and each parsed payload's `message`
field is absent, `null`, or a JSON string, concatenating the text
deltas of the frames emitted by the streaming path yields exactly the
aggregated non-streaming content. -/
theorem stream_agg_agree_wellFramed (ps : List Str)
    (h : ∀ l ∈ ps, '\n' ∉ l ∧ msgFieldOk (l.drop 6) = true) :
    streamConcat (runStreamText ((ps.map (fun l => l ++ ['\n', '\n'])).flatten))
      = aggregate ((ps.map (fun l => l ++ ['\n', '\n'])).flatten) := by
  induction ps with
  | nil => rfl
  | cons l ps' ih0 =>
    obtain ⟨hnl, hok⟩ := h l (List.mem_cons_self _ _)
    have ih := ih0 (fun x hx => h x (List.mem_cons_of_mem _ hx))
    have hfl : ((l :: ps').map (fun x => x ++ ['\n', '\n'])).flatten
        = l ++ '\n' :: '\n' :: ((ps'.map (fun x => x ++ ['\n', '\n'])).flatten) := by
      simp
    rw [hfl]
    unfold runStreamText aggregate at ih ⊢
    rw [splitBB_block _ _ hnl]
    have hsp : splitNl (l ++ '\n' :: '\n' :: ((ps'.map (fun x => x ++ ['\n', '\n'])).flatten))
        = (l :: [] :: (splitNl ((ps'.map (fun x => x ++ ['\n', '\n'])).flatten)).1,
           (splitNl ((ps'.map (fun x => x ++ ['\n', '\n'])).flatten)).2) := by
      rw [splitNl_line _ _ hnl]
      simp [splitNl]
    rw [hsp]
    by_cases hd : l.drop 6 = doneLit
    · have he : lineEvent l = LEvent.term := (lineEvent_term_iff l).mpr hd
      simp [procLines, he, aggParts, hd, streamConcat, frameText]
    · cases hp : jsonParse (l.drop 6) with
      | none =>
        have he : lineEvent l = LEvent.skip := lineEvent_skip_of_fail l hd hp
        simpa [procLines, he, lineEvent_nil, aggParts, hd, hp] using ih
      | some v =>
        cases v with
        | null =>
          have he : lineEvent l = LEvent.skip := by simp [lineEvent, hd, hp]
          simpa [procLines, he, lineEvent_nil, aggParts, hd, hp] using ih
        | str s =>
          have he : lineEvent l
              = LEvent.emitF (objGet (Json.str s) roleKey) (objGet (Json.str s) msgKey) :=
            lineEvent_emit l _ hp (fun hx => Json.noConfusion hx)
          simp only [procLines, he, lineEvent_nil, aggParts, hd, if_false, hp,
            streamConcat, List.map_cons, List.flatten_cons, frameText, objGet]
          simpa [streamConcat, deltaText] using ih
        | bool b =>
          have he : lineEvent l
              = LEvent.emitF (objGet (Json.bool b) roleKey) (objGet (Json.bool b) msgKey) :=
            lineEvent_emit l _ hp (fun hx => Json.noConfusion hx)
          simp only [procLines, he, lineEvent_nil, aggParts, hd, if_false, hp,
            streamConcat, List.map_cons, List.flatten_cons, frameText, objGet]
          simpa [streamConcat, deltaText] using ih
        | num x =>
          have he : lineEvent l
              = LEvent.emitF (objGet (Json.num x) roleKey) (objGet (Json.num x) msgKey) :=
            lineEvent_emit l _ hp (fun hx => Json.noConfusion hx)
          simp only [procLines, he, lineEvent_nil, aggParts, hd, if_false, hp,
            streamConcat, List.map_cons, List.flatten_cons, frameText, objGet]
          simpa [streamConcat, deltaText] using ih
        | arr xs =>
          have he : lineEvent l
              = LEvent.emitF (objGet (Json.arr xs) roleKey) (objGet (Json.arr xs) msgKey) :=
            lineEvent_emit l _ hp (fun hx => Json.noConfusion hx)
          simp only [procLines, he, lineEvent_nil, aggParts, hd, if_false, hp,
            streamConcat, List.map_cons, List.flatten_cons, frameText, objGet]
          simpa [streamConcat, deltaText] using ih
        | obj fs =>
          have he : lineEvent l
              = LEvent.emitF (objGet (Json.obj fs) roleKey) (objGet (Json.obj fs) msgKey) :=
            lineEvent_emit l _ hp (fun hx => Json.noConfusion hx)
          have hokv : msgFieldOk (l.drop 6) = true := hok
          simp only [msgFieldOk, hp] at hokv
          cases hg : objGet (Json.obj fs) msgKey with
          | none =>
            simp only [procLines, he, lineEvent_nil, aggParts, hd, if_false, hp, hg,
              streamConcat, List.map_cons, List.flatten_cons, frameText]
            simpa [streamConcat, deltaText, hg] using ih
          | some w =>
            cases w with
            | null =>
              simp only [procLines, he, lineEvent_nil, aggParts, hd, if_false, hp, hg,
                streamConcat, List.map_cons, List.flatten_cons, frameText]
              simpa [streamConcat, deltaText, hg] using ih
            | str s =>
              simp only [procLines, he, lineEvent_nil, aggParts, hd, if_false, hp, hg,
                streamConcat, List.map_cons, List.flatten_cons, frameText]
              simp only [deltaText, hg, jsToString]
              rw [List.append_cancel_left_eq]  -- reduce s ++ X = s ++ Y to X = Y
              simpa [streamConcat] using ih
            | bool b => simp [hg] at hokv
            | num x => simp [hg] at hokv
            | arr xs => simp [hg] at hokv
            | obj gs => simp [hg] at hokv

theorem stream_agg_agree_wellFramed_witness :
    streamConcat (runStreamText (([("data: \x7b\"message\":\"Hel\"\x7d".toList),
        ("data: \x7b\"message\":\"lo\"\x7d".toList), ("data: [DONE]".toList)].map
          (fun l => l ++ ['\n', '\n'])).flatten))
      = aggregate (([("data: \x7b\"message\":\"Hel\"\x7d".toList),
        ("data: \x7b\"message\":\"lo\"\x7d".toList), ("data: [DONE]".toList)].map
          (fun l => l ++ ['\n', '\n'])).flatten) :=
  stream_agg_agree_wellFramed [("data: \x7b\"message\":\"Hel\"\x7d".toList),
    ("data: \x7b\"message\":\"lo\"\x7d".toList), ("data: [DONE]".toList)] (by decide)

/-! ### Request translation and handler-level claims -/

/-- C4: the translated backend body copies the model id verbatim and
maps the message list element-wise in order: a "system" role message
appears as role "user" with unchanged content, every other message
passes through unchanged. -/
theorem translator_system_to_user (req : ChatRequest) :
    (requestParams req).model = req.model
    ∧ (requestParams req).messages.length = req.messages.length
    ∧ ∀ (i : Nat) (m : ChatMessage), req.messages[i]? = some m →
        (m.role = ("system".toList) →
          (requestParams req).messages[i]? = some ⟨("user".toList), m.content⟩)
        ∧ (¬ m.role = ("system".toList) →
          (requestParams req).messages[i]? = some m) := by
  refine ⟨rfl, by simp [requestParams], ?_⟩
  intro i m hm
  constructor
  · intro hr
    simp [requestParams, List.getElem?_map, hm, translateMessage, hr]
  · intro hr
    have hr2 : ¬ m.role = ['s', 'y', 's', 't', 'e', 'm'] := by
      intro hx
      exact hr (by rw [hx]; rfl)
    simp [requestParams, List.getElem?_map, hm, translateMessage, hr2]

theorem translator_system_to_user_witness :
    (requestParams ⟨("gpt-4o-mini".toList),
        [⟨("system".toList), ("Be terse".toList)⟩, ⟨("user".toList), ("Hi".toList)⟩],
        false⟩).messages[0]? = some ⟨("user".toList), ("Be terse".toList)⟩ :=
  ((translator_system_to_user ⟨("gpt-4o-mini".toList),
      [⟨("system".toList), ("Be terse".toList)⟩, ⟨("user".toList), ("Hi".toList)⟩],
      false⟩).2.2 0 ⟨("system".toList), ("Be terse".toList)⟩ rfl).1 rfl

/-- C7 (counterexample): on a failing backend call the payload's
error field is the fixed string "api request error"; the backend's raw
error text appears only in a separate message field, so the payload is
not of the claimed shape with the raw text in its error field. -/
theorem backend_error_payload_cex :
    handleChat ⟨("m".toList), [], false⟩ (some ("tok".toList)) (Except.ok none)
        (fun _ _ => ⟨false, ("boom".toList), none, none⟩)
      = Outcome.errJson 400 ("api request error".toList) (some ("boom".toList))
    ∧ ¬ ("api request error".toList) = ("boom".toList) :=
  ⟨rfl, by decide⟩

/-- C7 (amended): a non-success backend call makes the handler respond
HTTP 400 with payload error = "api request error" and message = the
backend's raw error text, and no stream processing occurs: the outcome
carries no frames and is unchanged under any response body. -/
theorem backend_error_maps_400 (req : ChatRequest) (tok : Str) (resp : BackendResp)
    (htok : ¬ tok = []) (hok : resp.ok = false) :
    handleChat req (some tok) (Except.ok none) (fun _ _ => resp)
        = Outcome.errJson 400 apiErrText (some resp.errorText)
    ∧ ∀ body2, handleChat req (some tok) (Except.ok none)
        (fun _ _ => ⟨resp.ok, resp.errorText, resp.xvqd, body2⟩)
      = Outcome.errJson 400 apiErrText (some resp.errorText) := by
  constructor
  · simp [handleChat, effToken, htok, hok]
  · intro body2
    simp [handleChat, effToken, htok, hok]

theorem backend_error_maps_400_witness :
    handleChat ⟨("m".toList), [], false⟩ (some ("t".toList)) (Except.ok none)
        (fun _ _ => ⟨false, ("oops".toList), none, none⟩)
      = Outcome.errJson 400 apiErrText (some ("oops".toList))
    ∧ ∀ body2, handleChat ⟨("m".toList), [], false⟩ (some ("t".toList)) (Except.ok none)
        (fun _ _ => ⟨false, ("oops".toList), none, body2⟩)
      = Outcome.errJson 400 apiErrText (some ("oops".toList)) :=
  backend_error_maps_400 ⟨("m".toList), [], false⟩ ("t".toList)
    ⟨false, ("oops".toList), none, none⟩ (by decide) rfl

/-- C8: when the caller supplies no usable x-vqd-4 header and fresh
acquisition also yields no token, the handler responds HTTP 400 with
the token error payload, and the backend chat endpoint is never
called: the outcome is identical for every chat function. -/
theorem missing_token_short_circuit (req : ChatRequest) (hdr : Option Str) (ft : Option Str)
    (hhdr : hdr = none ∨ hdr = some []) (hft : ft = none ∨ ft = some [])
    (chat chat2 : BackendReqBody → Str → BackendResp) :
    handleChat req hdr (Except.ok ft) chat = Outcome.errJson 400 tokenErrText none
    ∧ handleChat req hdr (Except.ok ft) chat = handleChat req hdr (Except.ok ft) chat2 := by
  have he : effToken hdr (Except.ok ft) = Except.ok [] := by
    rcases hhdr with rfl | rfl <;> rcases hft with rfl | rfl <;> simp [effToken]
  constructor <;> simp [handleChat, he]

theorem missing_token_short_circuit_witness :
    handleChat ⟨("m".toList), [], true⟩ none (Except.ok none)
        (fun _ _ => ⟨true, [], none, none⟩)
      = Outcome.errJson 400 tokenErrText none
    ∧ handleChat ⟨("m".toList), [], true⟩ none (Except.ok none)
        (fun _ _ => ⟨true, [], none, none⟩)
      = handleChat ⟨("m".toList), [], true⟩ none (Except.ok none)
        (fun _ _ => ⟨false, ("e".toList), none, none⟩) :=
  missing_token_short_circuit ⟨("m".toList), [], true⟩ none none
    (Or.inl rfl) (Or.inl rfl) (fun _ _ => ⟨true, [], none, none⟩)
    (fun _ _ => ⟨false, ("e".toList), none, none⟩)

/-- C9 (counterexample): the x-vqd-4 response header does not echo the
token used for the backend call — with caller token "tok1" and a
backend chat response carrying header "tok2", the completion's header
value is "tok2". -/
theorem vqd_header_echo_cex :
    handleChat ⟨("m".toList), [], false⟩ (some ("tok1".toList)) (Except.ok none)
        (fun _ _ => ⟨true, [], some ("tok2".toList), some []⟩)
      = Outcome.completion [] ("tok2".toList)
    ∧ ¬ ("tok2".toList) = ("tok1".toList) :=
  ⟨rfl, by decide⟩

/-- C9 (amended): a successful non-streaming request yields HTTP 200
whose x-vqd-4 response header equals the x-vqd-4 header of the backend
chat response (empty string when absent) — not the session token that
was sent; this holds for caller-supplied and freshly acquired
tokens alike. -/
theorem vqd_header_from_backend_resp (req : ChatRequest) (tok : Str) (resp : BackendResp)
    (chunks : List (List Nat))
    (htok : ¬ tok = []) (hok : resp.ok = true) (hstream : req.stream = false)
    (hbody : resp.body = some chunks) :
    handleChat req (some tok) (Except.ok none) (fun _ _ => resp)
        = Outcome.completion (aggregate (decodeFull chunks.flatten)) ((resp.xvqd).getD [])
    ∧ handleChat req none (Except.ok (some tok)) (fun _ _ => resp)
        = Outcome.completion (aggregate (decodeFull chunks.flatten)) ((resp.xvqd).getD []) := by
  constructor <;> simp [handleChat, effToken, htok, hok, hstream, hbody]

theorem vqd_header_from_backend_resp_witness :
    handleChat ⟨("m".toList), [], false⟩ (some ("tok1".toList)) (Except.ok none)
        (fun _ _ => ⟨true, [], some ("tok2".toList), some []⟩)
      = Outcome.completion (aggregate (decodeFull ([] : List (List Nat)).flatten))
          ("tok2".toList)
    ∧ handleChat ⟨("m".toList), [], false⟩ none (Except.ok (some ("tok1".toList)))
        (fun _ _ => ⟨true, [], some ("tok2".toList), some []⟩)
      = Outcome.completion (aggregate (decodeFull ([] : List (List Nat)).flatten))
          ("tok2".toList) :=
  vqd_header_from_backend_resp ⟨("m".toList), [], false⟩ ("tok1".toList)
    ⟨true, [], some ("tok2".toList), some []⟩ [] (by decide) rfl rfl rfl
